import Mathlib

/-!
Shallow embedding of the ingestion and incremental-merge engine of
`scripts/load_nordea.py` (Nordea CSV → staging store), together with
theorems settling the frozen claims about it.

Modelling conventions:
* Python `str` values are Lean `String`s; the string primitives the code
  relies on (`str.replace` with one-character patterns, `str.split`,
  `str.startswith`, number rendering) are embedded as structural
  recursions over the character list, so that every definition
  kernel-evaluates on concrete inputs.
* Python `float` values produced by the Danish-decimal parser are embedded
  as exact decimal numbers `Dec` (an integer mantissa together with a
  decimal exponent, kept in canonical trailing-zero-free form).  `str()`
  of such a float is Python's shortest round-trip rendering, embedded by
  `pyFloatStr`.  (Scientific notation, `inf`/`nan` and the distinction
  between `0.0` and `-0.0` never arise for bank-statement data and are
  outside the embedding.)
* The MD5 hexdigest taken at the end of `compute_hash` is a fixed
  deterministic function of its input string, so digest equality is
  governed by equality of that input; the embedding therefore exposes the
  digest as its preimage (the joined field string).
* Exceptions are embedded as `Except`: a raising execution returns
  `.error` and produces no state.  In the source, the date-parse error is
  raised before the batch `INSERT` statement runs, so an erroring call
  leaves the staging table untouched, which matches the `Except` model.
* The DuckDB staging table is a list of rows in insertion order; the
  `PRIMARY KEY (transaction_hash)` with `ON CONFLICT DO NOTHING` is the
  conditional append `insertRow`.  Python `set`s of dates are lists used
  only through membership.
-/

namespace Finance

/-- One decimal digit as a character, `0 ≤ n ≤ 9`. -/
def digitChar (n : Nat) : Char := Char.ofNat (48 + n)

/-- Decimal digits of `n` (most significant first), fuel-driven so that it
kernel-evaluates; `fuel` must exceed the number of digits. -/
def natDigits (fuel n : Nat) : List Char :=
  match fuel with
  | 0 => []
  | fuel + 1 =>
    if n < 10 then [digitChar n]
    else natDigits fuel (n / 10) ++ [digitChar (n % 10)]

/-- Value of a list of decimal digit characters (the inverse of
`natDigits` on digit strings). -/
def digitsToNat (cs : List Char) : Nat :=
  cs.foldl (fun n c => n * 10 + (c.toNat - 48)) 0

/-- Split a character list at every occurrence of a one-character
separator; embeds Python `str.split(sep)` / Lean `String.splitOn` for the
one-character separators used by the source. -/
def splitChar (sep : Char) : List Char → List (List Char)
  | [] => [[]]
  | c :: cs =>
    if c = sep then [] :: splitChar sep cs
    else
      match splitChar sep cs with
      | [] => [[c]]
      | g :: gs => (c :: g) :: gs

/-- The characters strictly before the first occurrence of `sep` (the
whole list when `sep` does not occur); embeds `s.split(sep, 1)[0]`. -/
def splitHead (sep : List Char) : List Char → List Char
  | [] => []
  | c :: cs => if sep.isPrefixOf (c :: cs) then [] else c :: splitHead sep cs

/-- Join strings with a separator; embeds `sep.join(parts)` /
`"|".join(...)`. -/
def joinWith (sep : String) : List String → String
  | [] => ""
  | [x] => x
  | x :: y :: xs => x ++ sep ++ joinWith sep (y :: xs)

/-- An exact decimal number `mantissa * 10 ^ (-exp)`: the embedding of the
Python floats produced by the Danish-decimal parser.  Values are kept
canonical (trailing zeros stripped from the fraction), so equality of
`Dec` values coincides with numeric equality. -/
structure Dec where
  mantissa : Int
  exp : Nat
deriving DecidableEq, Repr

/-- Numeric value of a `Dec` as a rational. -/
def Dec.toRat (d : Dec) : ℚ := (d.mantissa : ℚ) / (10 : ℚ) ^ d.exp

/-- Negation of a decimal value. -/
def Dec.neg (d : Dec) : Dec := ⟨-d.mantissa, d.exp⟩

/-- Strip trailing fractional zeros: canonical mantissa/exponent pair for
`n * 10 ^ (-e)`. -/
def normDecAux : Nat → Nat → Nat × Nat
  | n, 0 => (n, 0)
  | n, e + 1 => if n % 10 = 0 then normDecAux (n / 10) e else (n, e + 1)

/-- Canonical nonnegative decimal from mantissa `n` and exponent `e`. -/
def mkDec (n e : Nat) : Dec :=
  let p := normDecAux n e
  ⟨Int.ofNat p.1, p.2⟩

/-- Python's `str()` of a (finite, non-huge, non-tiny) float, which is the
shortest round-trip decimal rendering: for a canonical `Dec` this prints
the mantissa with the decimal point inserted, always keeping at least one
fractional digit (`str(-12.0) = "-12.0"`, `str(1234.56) = "1234.56"`,
`str(0.5) = "0.5"`). -/
def pyFloatStr (d : Dec) : String :=
  let ds := natDigits (d.mantissa.natAbs + 1) d.mantissa.natAbs
  let ds := if ds.length ≤ d.exp then List.replicate (d.exp + 1 - ds.length) '0' ++ ds else ds
  let k := ds.length - d.exp
  let core := if d.exp = 0 then ds ++ ['.', '0'] else ds.take k ++ ['.'] ++ ds.drop k
  String.mk ((if d.mantissa < 0 then ['-'] else []) ++ core)

/-- Grammar of the decimal literals accepted by Python `float()` on the
cleaned strings the loader produces: an optional sign, digits, and at most
one decimal point with at least one digit overall.  (Exponents,
`inf`/`nan` and surrounding whitespace never occur in bank exports and are
outside the embedding.) -/
def parseUnsignedDec (cs : List Char) : Option Dec :=
  match splitChar '.' cs with
  | [ip, fp] =>
    if ip.length + fp.length ≠ 0 ∧ ip.all Char.isDigit ∧ fp.all Char.isDigit then
      some (mkDec (digitsToNat ip * 10 ^ fp.length + digitsToNat fp) fp.length)
    else none
  | [ip] =>
    if ip.length ≠ 0 ∧ ip.all Char.isDigit then some ⟨Int.ofNat (digitsToNat ip), 0⟩
    else none
  | _ => none

/-- `float(s)` on the cleaned string, with an optional leading sign. -/
def parseDecimalString (cs : List Char) : Option Dec :=
  match cs with
  | '-' :: rest => (parseUnsignedDec rest).map Dec.neg
  | '+' :: rest => parseUnsignedDec rest
  | _ => parseUnsignedDec cs

/-- `NordeaTransaction.parse_danish_decimal`: `None`/empty stays absent;
otherwise remove every thousands separator `.`, turn the decimal comma
into a period (`replace(".", "").replace(",", ".")`, both one-character
patterns, hence a filter followed by a map), and parse the result as a
number; an unparseable cleaned string raises (`.error`). -/
def parse_danish_decimal (v : Option String) : Except String (Option Dec) :=
  match v with
  | none => .ok none
  | some s =>
    if s = "" then .ok none
    else
      let cleaned := (s.data.filter (fun c => c ≠ '.')).map (fun c => if c = ',' then '.' else c)
      match parseDecimalString cleaned with
      | some d => .ok (some d)
      | none => .error ("could not convert string to float: " ++ String.mk cleaned)

/-- `NordeaTransaction.normalize_date`: the sentinel `"Reserveret"` and
the empty string (and `None`) normalize to an absent date; every other
value passes through verbatim. -/
def normalize_date (v : Option String) : Option String :=
  match v with
  | none => none
  | some s => if s = "" ∨ s = "Reserveret" then none else some s

/-- `NordeaTransaction`: one normalized record, after the field
validators have run (`posting_date` normalized, `amount`/`balance` parsed
from Danish decimal format). -/
structure NordeaTransaction where
  posting_date : Option String
  amount : Dec
  sender : Option String
  recipient : Option String
  name : Option String
  description : Option String
  balance : Option Dec
  currency : String
  reconciled : Option String
deriving DecidableEq, Repr

/-- `NordeaTransaction.compute_hash`: the dedup identity is the MD5
hexdigest of `"|".join([posting_date or "", str(amount), description or
"", name or "", sender or "", recipient or ""])`.  MD5 is a fixed
deterministic function of this input string, so the embedding exposes the
digest as its preimage. -/
def compute_hash (t : NordeaTransaction) : String :=
  joinWith "|"
    [ t.posting_date.getD ""
    , pyFloatStr t.amount
    , t.description.getD ""
    , t.name.getD ""
    , t.sender.getD ""
    , t.recipient.getD "" ]

/-- `COLUMN_MAPPING`: Danish CSV header → English field name; unmapped
columns pass through under their own name (`COLUMN_MAPPING.get(col, col)`). -/
def COLUMN_MAPPING (col : String) : String :=
  if col = "Bogføringsdato" then "posting_date"
  else if col = "Beløb" then "amount"
  else if col = "Afsender" then "sender"
  else if col = "Modtager" then "recipient"
  else if col = "Navn" then "name"
  else if col = "Beskrivelse" then "description"
  else if col = "Saldo" then "balance"
  else if col = "Valuta" then "currency"
  else if col = "Afstemt" then "reconciled"
  else col

/-- Lookup in the row dictionary `dict(zip(header, row))`: with duplicate
keys the later entry wins, as in a Python dict built from pairs.  `none`
means the key is missing; `some none` means the key maps to an absent
(empty-string-normalized) value. -/
def lookupLast (d : List (String × Option String)) (k : String) : Option (Option String) :=
  (d.reverse.find? (fun p => p.1 == k)).map (fun p => p.2)

/-- A pydantic field without a default is required: a missing key is a
validation error. -/
def getField (d : List (String × Option String)) (k : String) : Except String (Option String) :=
  match lookupLast d k with
  | none => .error ("field required: " ++ k)
  | some v => .ok v

/-- `NordeaTransaction(**row_dict)`: pydantic construction with the
`mode="before"` field validators.  Extra keys are ignored (default
`extra="ignore"`); every declared field except `currency` (default
`"DKK"`) is required; `amount` must parse to a number and may not be
absent; `posting_date` is normalized; `balance` is parsed and may be
absent; a `None` value for `currency` (a `str` field) is rejected. -/
def mkTransaction (d : List (String × Option String)) : Except String NordeaTransaction := do
  let pdRaw ← getField d "posting_date"
  let amtRaw ← getField d "amount"
  let amount ←
    match parse_danish_decimal amtRaw with
    | .error e => Except.error e
    | .ok none => Except.error "amount: input should be a valid number"
    | .ok (some a) => Except.ok a
  let sender ← getField d "sender"
  let recipient ← getField d "recipient"
  let name ← getField d "name"
  let description ← getField d "description"
  let balRaw ← getField d "balance"
  let balance ← parse_danish_decimal balRaw
  let currency ←
    match lookupLast d "currency" with
    | none => Except.ok "DKK"
    | some none => Except.error "currency: input should be a valid string"
    | some (some c) => Except.ok c
  let reconciled ← getField d "reconciled"
  Except.ok
    { posting_date := normalize_date pdRaw, amount, sender, recipient, name
    , description, balance, currency, reconciled }

/-- Right-pad a row with empty values up to the header length
(`while len(row) < len(header): row.append("")`). -/
def padTo (row : List String) (n : Nat) : List String :=
  row ++ List.replicate (n - row.length) ""

/-- Drop one trailing empty value, from a trailing delimiter
(`if row and row[-1] == "": row = row[:-1]`). -/
def effRow (row : List String) : List String :=
  if row.getLast? = some "" then row.dropLast else row

/-- The row dictionary `dict(zip(english_header, row))` after padding the
row to the header length, with empty strings normalized to absent. -/
def rowDict (eh row : List String) : List (String × Option String) :=
  (eh.zip (padTo row eh.length)).map (fun p => (p.1, if p.2 = "" then none else some p.2))

/-- The per-data-row step of `parse_csv_file`: skip empty/blank rows, drop
one trailing empty value, pad to the header, zip into a row dictionary,
and construct the record (a construction failure aborts the whole parse). -/
def processRow (eh : List String) (acc : List NordeaTransaction) (row : List String) :
    Except String (List NordeaTransaction) :=
  if row.isEmpty ∨ row.all (fun v => v == "") then .ok acc
  else (mkTransaction (rowDict eh (effRow row))).map (fun t => acc ++ [t])

/-- `parse_csv_file`, at the level of the rows produced by the
semicolon-delimited `csv.reader` (header row first): an empty file or an
empty header yields no records with only a warning; a trailing empty
header column is dropped; headers are mapped through `COLUMN_MAPPING`;
each data row is processed by `processRow`.  The BOM stripping and the
quoting rules of `csv.reader` live below this row-level interface. -/
def parse_csv_file (rows : List (List String)) : Except String (List NordeaTransaction) :=
  match rows with
  | [] => .ok []
  | header :: dataRows =>
    if header.isEmpty then .ok []
    else
      let header := if header.getLast? = some "" then header.dropLast else header
      let eh := header.map COLUMN_MAPPING
      dataRows.foldlM (processRow eh) []

/-- A calendar date, as validated by `datetime.strptime(s, "%Y/%m/%d")`. -/
structure Date where
  year : Nat
  month : Nat
  day : Nat
deriving DecidableEq, Repr

/-- Gregorian leap year, as in `datetime`. -/
def isLeap (y : Nat) : Bool := y % 4 = 0 && (y % 100 ≠ 0 || y % 400 = 0)

/-- Number of days in a month, as validated by `datetime`. -/
def daysInMonth (y m : Nat) : Nat :=
  if m = 2 then (if isLeap y then 29 else 28)
  else if m = 4 ∨ m = 6 ∨ m = 9 ∨ m = 11 then 30
  else 31

/-- `datetime.strptime(s, "%Y/%m/%d").date()`: a four-digit year (at
least 1), a one- or two-digit month `1..12`, a one- or two-digit day
valid for that month, separated by `/`, with nothing left over; `none`
when the string does not match. -/
def parsePostingDateStr (s : String) : Option Date :=
  match splitChar '/' s.data with
  | [ys, ms, ds] =>
    if ys.length = 4 ∧ ys.all Char.isDigit ∧
       0 < ms.length ∧ ms.length ≤ 2 ∧ ms.all Char.isDigit ∧
       0 < ds.length ∧ ds.length ≤ 2 ∧ ds.all Char.isDigit then
      let y := digitsToNat ys
      let m := digitsToNat ms
      let d := digitsToNat ds
      if 1 ≤ y ∧ 1 ≤ m ∧ m ≤ 12 ∧ 1 ≤ d ∧ d ≤ daysInMonth y m then some ⟨y, m, d⟩
      else none
    else none
  | _ => none

/-- The typed content of the `ValueError` raised by `parse_posting_date`:
its message names the offending value and the source file
(`f"Failed to parse posting_date '{date_str}' in file '{source_file}'"`). -/
structure DateError where
  value : String
  file : String
deriving DecidableEq, Repr

/-- Rendering of the raised message (without the chained `strptime`
detail). -/
def DateError.render (e : DateError) : String :=
  "Failed to parse posting_date '" ++ e.value ++ "' in file '" ++ e.file ++ "'"

/-- `parse_posting_date`: a falsy value (`None` or the empty string)
yields no date; otherwise the value must match `%Y/%m/%d`, and a mismatch
raises a `ValueError` naming the value and the file. -/
def parse_posting_date (date_str : Option String) (source_file : String) :
    Except DateError (Option Date) :=
  match date_str with
  | none => .ok none
  | some s =>
    if s = "" then .ok none
    else
      match parsePostingDateStr s with
      | some d => .ok (some d)
      | none => .error ⟨s, source_file⟩

/-- One row of the `raw_nordea_transactions` staging table (the
`loaded_at` insertion timestamp is real time and is not part of the
embedding). -/
structure Row where
  transaction_hash : String
  posting_date : Option Date
  amount : Dec
  sender : Option String
  recipient : Option String
  name : Option String
  description : Option String
  balance : Option Dec
  currency : String
  reconciled : Option String
  source_file : String
deriving DecidableEq, Repr

/-- The staging row staged for insertion for a transaction whose posting
date `d` survived the skip checks. -/
def mkRow (txn : NordeaTransaction) (source_file : String) (d : Date) : Row :=
  { transaction_hash := compute_hash txn
  , posting_date := some d
  , amount := txn.amount
  , sender := txn.sender
  , recipient := txn.recipient
  , name := txn.name
  , description := txn.description
  , balance := txn.balance
  , currency := txn.currency
  , reconciled := txn.reconciled
  , source_file := source_file }

/-- `INSERT ... ON CONFLICT (transaction_hash) DO NOTHING`: append the row
unless its primary key is already present. -/
def insertRow (store : List Row) (r : Row) : List Row :=
  if store.any (fun x => x.transaction_hash == r.transaction_hash) then store
  else store ++ [r]

/-- Accumulator of the batch-preparation loop of `load_transactions`. -/
structure LoadStep where
  batch : List Row
  dates : List Date
  skipped : Nat
deriving Repr

/-- One iteration of the batch-preparation loop: parse the posting date
(raising on a malformed one), skip pending transactions and transactions
whose date is already covered by a newer file, and otherwise record the
date and stage the row. -/
def processTxn (source_file : String) (loaded_dates : List Date)
    (st : LoadStep) (txn : NordeaTransaction) : Except DateError LoadStep := do
  let pd ← parse_posting_date txn.posting_date source_file
  match pd with
  | none => pure { st with skipped := st.skipped + 1 }
  | some d =>
    if d ∈ loaded_dates then pure { st with skipped := st.skipped + 1 }
    else
      pure { batch := st.batch ++ [mkRow txn source_file d]
           , dates := st.dates.insert d
           , skipped := st.skipped }

/-- `load_transactions`: prepare the batch (skipping pending and
already-covered transactions), then batch-insert with `ON CONFLICT DO
NOTHING`, returning `(inserted, skipped, new_dates)` together with the
resulting store; `inserted` is the table row-count difference across the
insert, and hash conflicts count as skips. -/
def load_transactions (store : List Row) (transactions : List NordeaTransaction)
    (source_file : String) (loaded_dates : List Date) :
    Except DateError (Nat × Nat × List Date × List Row) :=
  if transactions.isEmpty then .ok (0, 0, [], store)
  else do
    let st ← transactions.foldlM (processTxn source_file loaded_dates) ⟨[], [], 0⟩
    if st.batch.isEmpty then .ok (0, st.skipped, [], store)
    else
      let count_before := store.length
      let store2 := st.batch.foldl insertRow store
      let inserted := store2.length - count_before
      let skipped_by_hash := st.batch.length - inserted
      .ok (inserted, st.skipped + skipped_by_hash, st.dates, store2)

/-- `create_staging_table`: with `truncate` the table is dropped and
recreated empty; otherwise `CREATE TABLE IF NOT EXISTS` keeps an existing
table (`db = some rows`) and creates an empty one when absent. -/
def create_staging_table (db : Option (List Row)) (truncate : Bool) : List Row :=
  if truncate then [] else db.getD []

/-- `extract_account_from_filename`: filenames starting with `"Konto "`
yield the part before the first `" - "`; any other filename is its own
account. -/
def extract_account_from_filename (filename : String) : String :=
  if ("Konto ").data.isPrefixOf filename.data then
    String.mk (splitHead (" - ").data filename.data)
  else filename

/-- One export file: its name and its `csv.reader` rows. -/
structure CsvFile where
  name : String
  rows : List (List String)
deriving Repr

/-- Python string comparison: strict lexicographic order on the code
points (a proper prefix sorts first). -/
def strLt : List Char → List Char → Bool
  | [], [] => false
  | [], _ :: _ => true
  | _ :: _, [] => false
  | a :: as, b :: bs => if a < b then true else if b < a then false else strLt as bs

/-- Insert a file into a list sorted by name in descending order,
stability included: the new file goes before the first file whose name is
not greater (`sort(key=name, reverse=True)` is the stable descending
sort). -/
def insertFileDesc (x : CsvFile) : List CsvFile → List CsvFile
  | [] => [x]
  | y :: ys => if strLt x.name.data y.name.data then y :: insertFileDesc x ys else x :: y :: ys

/-- `csv_files.sort(key=lambda f: f.name, reverse=True)`: stable
descending sort by filename, so newer exports (later embedded timestamps)
come first. -/
def sortFilesDesc (l : List CsvFile) : List CsvFile := l.foldr insertFileDesc []

/-- An abort of the whole run: a record-construction (pydantic) failure
while parsing a file, or a malformed posting date while loading one. -/
inductive RunError where
  | build (msg : String)
  | date (e : DateError)
deriving Repr

/-- The running state of `load_all_csv_files`: the staging store, the
per-account coverage (`loaded_dates_by_account`, absent accounts reading
as the empty set), and the running totals. -/
structure RunState where
  store : List Row
  cov : String → List Date
  inserted : Nat
  skipped : Nat

/-- The per-file body of the `load_all_csv_files` loop: resolve the
account, parse the file, load it against the account's coverage, then
merge the file's new dates into that account's coverage and accumulate
the totals. -/
def processFile (st : RunState) (f : CsvFile) : Except RunError RunState := do
  let account := extract_account_from_filename f.name
  let loaded := st.cov account
  let txns ←
    match parse_csv_file f.rows with
    | .error e => Except.error (RunError.build e)
    | .ok ts => Except.ok ts
  match load_transactions st.store txns f.name loaded with
  | .error e => Except.error (RunError.date e)
  | .ok (i, s, nd, store2) =>
    Except.ok
      { store := store2
      , cov := fun a => if a = account then nd.foldl (fun acc d => acc.insert d) (st.cov account) else st.cov a
      , inserted := st.inserted + i
      , skipped := st.skipped + s }

/-- `load_all_csv_files(csv_dir, db_path, truncate)`: create (or drop and
recreate) the staging table, then process the directory's files
newest-first, threading per-account coverage; returns the final store and
the total inserted/skipped counts.  The directory and database-path
filesystem checks sit outside the embedding. -/
def load_all_csv_files (files : List CsvFile) (db : Option (List Row)) (truncate : Bool) :
    Except RunError (List Row × Nat × Nat) := do
  let sorted := sortFilesDesc files
  let init : RunState := { store := create_staging_table db truncate, cov := fun _ => [], inserted := 0, skipped := 0 }
  let fin ← sorted.foldlM processFile init
  Except.ok (fin.store, fin.inserted, fin.skipped)

/-- The default invocation (`load_all_csv_files(csv_dir, db_path)`, as
`main()` performs it): the `truncate` parameter defaults to `True`. -/
def load_all_csv_files_default (files : List CsvFile) (db : Option (List Row)) :
    Except RunError (List Row × Nat × Nat) :=
  load_all_csv_files files db true

/-- A transaction the batch loop skips: its parsed posting date is absent
(pending), or it is already covered by a newer file's dates. -/
def pendingOrCovered (f : String) (ld : List Date) (t : NordeaTransaction) : Bool :=
  match parse_posting_date t.posting_date f with
  | .ok none => true
  | .ok (some d) => decide (d ∈ ld)
  | .error _ => false

/-- A pending transaction: its parsed posting date is absent. -/
def isPending (f : String) (t : NordeaTransaction) : Bool :=
  match parse_posting_date t.posting_date f with
  | .ok none => true
  | _ => false

/-- A transaction covered by a newer file: parsed date present and in the
coverage set. -/
def isCovered (f : String) (ld : List Date) (t : NordeaTransaction) : Bool :=
  match parse_posting_date t.posting_date f with
  | .ok (some d) => decide (d ∈ ld)
  | _ => false

theorem processTxn_ok_cases {f : String} {ld : List Date} {st : LoadStep}
    {t : NordeaTransaction} {st' : LoadStep}
    (h : processTxn f ld st t = .ok st') :
    (st'.batch = st.batch ∧ st'.dates = st.dates ∧ st'.skipped = st.skipped + 1 ∧
       pendingOrCovered f ld t = true) ∨
    (∃ d, parse_posting_date t.posting_date f = .ok (some d) ∧ d ∉ ld ∧
       st'.batch = st.batch ++ [mkRow t f d] ∧ st'.dates = st.dates.insert d ∧
       st'.skipped = st.skipped ∧ pendingOrCovered f ld t = false) := by
  cases hp : parse_posting_date t.posting_date f with
  | error e =>
    simp only [processTxn, hp, bind, Except.bind] at h
    cases h
  | ok pd =>
    cases pd with
    | none =>
      left
      simp only [processTxn, hp, bind, Except.bind, pure, Except.pure, Except.ok.injEq] at h
      subst h
      simp [pendingOrCovered, hp]
    | some d =>
      by_cases hd : d ∈ ld
      · left
        simp only [processTxn, hp, bind, Except.bind, pure, Except.pure, if_pos hd,
          Except.ok.injEq] at h
        subst h
        simp [pendingOrCovered, hp, hd]
      · right
        refine ⟨d, rfl, hd, ?_⟩
        simp only [processTxn, hp, bind, Except.bind, pure, Except.pure, if_neg hd,
          Except.ok.injEq] at h
        subst h
        simp [pendingOrCovered, hp, hd]

theorem processTxn_error {f : String} {ld : List Date} {st : LoadStep}
    {t : NordeaTransaction} {e : DateError}
    (h : processTxn f ld st t = .error e) :
    parse_posting_date t.posting_date f = .error e := by
  cases hp : parse_posting_date t.posting_date f with
  | error e' =>
    simp only [processTxn, hp, bind, Except.bind] at h
    cases h
    rfl
  | ok pd =>
    cases pd with
    | none => simp [processTxn, hp, bind, Except.bind, pure, Except.pure] at h
    | some d =>
      by_cases hd : d ∈ ld <;>
        simp [processTxn, hp, bind, Except.bind, pure, Except.pure, hd] at h

theorem processTxn_error_of_parse {f : String} {ld : List Date} {st : LoadStep}
    {t : NordeaTransaction} {e : DateError}
    (h : parse_posting_date t.posting_date f = .error e) :
    processTxn f ld st t = .error e := by
  simp [processTxn, h, bind, Except.bind]

theorem parse_posting_date_error_spec {v : Option String} {f : String} {e : DateError}
    (h : parse_posting_date v f = .error e) :
    e.file = f ∧ v = some e.value ∧ e.value ≠ "" ∧ parsePostingDateStr e.value = none := by
  cases v with
  | none => simp [parse_posting_date] at h
  | some s =>
    by_cases hs : s = ""
    · simp [parse_posting_date, hs] at h
    · cases hps : parsePostingDateStr s with
      | some d => simp [parse_posting_date, hs, hps] at h
      | none =>
        simp only [parse_posting_date, if_neg hs, hps, Except.error.injEq] at h
        subst h
        exact ⟨rfl, rfl, hs, hps⟩

theorem parse_posting_date_error_mk {s f : String} (hne : s ≠ "")
    (hbad : parsePostingDateStr s = none) :
    parse_posting_date (some s) f = .error ⟨s, f⟩ := by
  simp [parse_posting_date, hne, hbad]

theorem foldlM_processTxn_batch_mono {f : String} {ld : List Date} :
    ∀ {l : List NordeaTransaction} {st st' : LoadStep},
      l.foldlM (processTxn f ld) st = .ok st' → ∃ Δ, st'.batch = st.batch ++ Δ := by
  intro l
  induction l with
  | nil =>
    intro st st' h
    simp only [List.foldlM_nil, pure, Except.pure, Except.ok.injEq] at h
    exact ⟨[], by simp [h]⟩
  | cons t l ih =>
    intro st st' h
    rw [List.foldlM_cons] at h
    cases hstep : processTxn f ld st t with
    | error e => simp [hstep, bind, Except.bind] at h
    | ok st₂ =>
      simp only [hstep, bind, Except.bind] at h
      obtain ⟨Δ', hΔ'⟩ := ih h
      rcases processTxn_ok_cases hstep with ⟨hb, _, _, _⟩ | ⟨d, _, _, hb, _, _, _⟩
      · exact ⟨Δ', by rw [hΔ', hb]⟩
      · exact ⟨[mkRow t f d] ++ Δ', by rw [hΔ', hb, List.append_assoc]⟩

theorem foldlM_processTxn_batch_spec {f : String} {ld : List Date} :
    ∀ {l : List NordeaTransaction} {st st' : LoadStep},
      l.foldlM (processTxn f ld) st = .ok st' →
      ∀ r ∈ st'.batch, r ∈ st.batch ∨
        ∃ t ∈ l, ∃ d, parse_posting_date t.posting_date f = .ok (some d) ∧ d ∉ ld ∧
          r = mkRow t f d := by
  intro l
  induction l with
  | nil =>
    intro st st' h r hr
    simp only [List.foldlM_nil, pure, Except.pure, Except.ok.injEq] at h
    exact Or.inl (h ▸ hr)
  | cons t l ih =>
    intro st st' h r hr
    rw [List.foldlM_cons] at h
    cases hstep : processTxn f ld st t with
    | error e => simp [hstep, bind, Except.bind] at h
    | ok st₂ =>
      simp only [hstep, bind, Except.bind] at h
      rcases ih h r hr with hmem | ⟨t', ht', d, hp, hd, hrow⟩
      · rcases processTxn_ok_cases hstep with ⟨hb, _, _, _⟩ | ⟨d, hp, hd, hb, _, _, _⟩
        · exact Or.inl (hb ▸ hmem)
        · rw [hb, List.mem_append] at hmem
          rcases hmem with hmem | hmem
          · exact Or.inl hmem
          · right
            exact ⟨t, List.mem_cons_self t l, d, hp, hd, List.mem_singleton.mp hmem⟩
      · exact Or.inr ⟨t', List.mem_cons_of_mem t ht', d, hp, hd, hrow⟩

theorem foldlM_processTxn_count {f : String} {ld : List Date} :
    ∀ {l : List NordeaTransaction} {st st' : LoadStep},
      l.foldlM (processTxn f ld) st = .ok st' →
      st'.skipped + st'.batch.length = st.skipped + st.batch.length + l.length := by
  intro l
  induction l with
  | nil =>
    intro st st' h
    simp only [List.foldlM_nil, pure, Except.pure, Except.ok.injEq] at h
    simp [h]
  | cons t l ih =>
    intro st st' h
    rw [List.foldlM_cons] at h
    cases hstep : processTxn f ld st t with
    | error e => simp [hstep, bind, Except.bind] at h
    | ok st₂ =>
      simp only [hstep, bind, Except.bind] at h
      have hrec := ih h
      rcases processTxn_ok_cases hstep with ⟨hb, _, hk, _⟩ | ⟨d, _, _, hb, _, hk, _⟩ <;>
        rw [hrec, hb, hk] <;> simp <;> omega

theorem foldlM_processTxn_skipped {f : String} {ld : List Date} :
    ∀ {l : List NordeaTransaction} {st st' : LoadStep},
      l.foldlM (processTxn f ld) st = .ok st' →
      st'.skipped = st.skipped + l.countP (pendingOrCovered f ld) := by
  intro l
  induction l with
  | nil =>
    intro st st' h
    simp only [List.foldlM_nil, pure, Except.pure, Except.ok.injEq] at h
    simp [h]
  | cons t l ih =>
    intro st st' h
    rw [List.foldlM_cons] at h
    cases hstep : processTxn f ld st t with
    | error e => simp [hstep, bind, Except.bind] at h
    | ok st₂ =>
      simp only [hstep, bind, Except.bind] at h
      have hrec := ih h
      rcases processTxn_ok_cases hstep with ⟨_, _, hk, hpc⟩ | ⟨d, _, _, _, _, hk, hpc⟩ <;>
        · rw [hrec, hk, List.countP_cons, hpc]
          simp
          try omega

theorem foldlM_processTxn_present {f : String} {ld : List Date} :
    ∀ {l : List NordeaTransaction} {st st' : LoadStep},
      l.foldlM (processTxn f ld) st = .ok st' →
      ∀ t ∈ l, ∀ d, parse_posting_date t.posting_date f = .ok (some d) → d ∉ ld →
        ∃ r ∈ st'.batch, r.transaction_hash = compute_hash t := by
  intro l
  induction l with
  | nil =>
    intro st st' _ t ht
    exact absurd ht (List.not_mem_nil t)
  | cons t₀ l ih =>
    intro st st' h t ht d hp hd
    rw [List.foldlM_cons] at h
    cases hstep : processTxn f ld st t₀ with
    | error e => simp [hstep, bind, Except.bind] at h
    | ok st₂ =>
      simp only [hstep, bind, Except.bind] at h
      rcases List.mem_cons.mp ht with rfl | htl
      · have hrow : mkRow t f d ∈ st₂.batch := by
          rcases processTxn_ok_cases hstep with ⟨_, _, _, hpc⟩ | ⟨d', hp', hd', hb, _, _, _⟩
          · exfalso
            simp only [pendingOrCovered, hp] at hpc
            exact hd (by simpa using hpc)
          · rw [hp] at hp'
            cases hp'
            rw [hb]
            simp
        obtain ⟨Δ, hΔ⟩ := foldlM_processTxn_batch_mono h
        exact ⟨mkRow t f d, by rw [hΔ]; exact List.mem_append_left Δ hrow, rfl⟩
      · exact ih h t htl d hp hd

theorem foldlM_processTxn_error {f : String} {ld : List Date} :
    ∀ {l : List NordeaTransaction} (st : LoadStep),
      (∃ t ∈ l, ∃ e, parse_posting_date t.posting_date f = .error e) →
      ∃ e', l.foldlM (processTxn f ld) st = .error e' ∧
        ∃ t ∈ l, parse_posting_date t.posting_date f = .error e' := by
  intro l
  induction l with
  | nil =>
    intro st h
    obtain ⟨t, ht, _⟩ := h
    exact absurd ht (List.not_mem_nil t)
  | cons t₀ l ih =>
    intro st h
    rw [List.foldlM_cons]
    cases hstep : processTxn f ld st t₀ with
    | error e =>
      refine ⟨e, by simp [hstep, bind, Except.bind], t₀, List.mem_cons_self t₀ l, ?_⟩
      exact processTxn_error hstep
    | ok st₂ =>
      obtain ⟨t, ht, e, he⟩ := h
      rcases List.mem_cons.mp ht with rfl | htl
      · exact absurd hstep (by rw [processTxn_error_of_parse he]; simp)
      · obtain ⟨e', he', t', ht', hp'⟩ := ih st₂ ⟨t, htl, e, he⟩
        refine ⟨e', by simp [hstep, bind, Except.bind, he'], t', List.mem_cons_of_mem t₀ ht', hp'⟩

theorem processTxn_congr {f : String} {ld₁ ld₂ : List Date}
    (hmem : ∀ d, d ∈ ld₁ ↔ d ∈ ld₂) :
    processTxn f ld₁ = processTxn f ld₂ := by
  funext st t
  unfold processTxn
  cases parse_posting_date t.posting_date f with
  | error e => rfl
  | ok pd =>
    cases pd with
    | none => rfl
    | some d =>
      simp only [bind, Except.bind]
      by_cases hd : d ∈ ld₁
      · rw [if_pos hd, if_pos ((hmem d).mp hd)]
      · rw [if_neg hd, if_neg (fun hc => hd ((hmem d).mpr hc))]

theorem insertRow_append (s : List Row) (r : Row) :
    insertRow s r = s ∨ insertRow s r = s ++ [r] := by
  unfold insertRow
  by_cases h : s.any (fun x => x.transaction_hash == r.transaction_hash)
  · exact Or.inl (if_pos h)
  · exact Or.inr (if_neg h)

theorem foldl_insertRow_append :
    ∀ (batch : List Row) (s : List Row), ∃ tail, batch.foldl insertRow s = s ++ tail := by
  intro batch
  induction batch with
  | nil => exact fun s => ⟨[], by simp⟩
  | cons r batch ih =>
    intro s
    rw [List.foldl_cons]
    obtain ⟨tail, htail⟩ := ih (insertRow s r)
    rcases insertRow_append s r with hi | hi
    · exact ⟨tail, by rw [htail, hi]⟩
    · exact ⟨[r] ++ tail, by rw [htail, hi, List.append_assoc]⟩

theorem insertRow_hash_present (s : List Row) (r : Row) :
    ∃ row ∈ insertRow s r, row.transaction_hash = r.transaction_hash := by
  unfold insertRow
  by_cases h : s.any (fun x => x.transaction_hash == r.transaction_hash)
  · rw [if_pos h]
    obtain ⟨row, hrow, hh⟩ := List.any_eq_true.mp h
    exact ⟨row, hrow, by simpa using hh⟩
  · rw [if_neg h]
    exact ⟨r, by simp, rfl⟩

theorem foldl_insertRow_hash_present :
    ∀ (batch : List Row) (s : List Row), ∀ r ∈ batch,
      ∃ row ∈ batch.foldl insertRow s, row.transaction_hash = r.transaction_hash := by
  intro batch
  induction batch with
  | nil => exact fun s r hr => absurd hr (List.not_mem_nil r)
  | cons r₀ batch ih =>
    intro s r hr
    rw [List.foldl_cons]
    rcases List.mem_cons.mp hr with rfl | htl
    · obtain ⟨row, hrow, hh⟩ := insertRow_hash_present s r
      obtain ⟨tail, htail⟩ := foldl_insertRow_append batch (insertRow s r)
      exact ⟨row, by rw [htail]; exact List.mem_append_left tail hrow, hh⟩
    · exact ih (insertRow s r₀) r htl

theorem foldl_insertRow_id :
    ∀ (batch : List Row) (s : List Row),
      (∀ r ∈ batch, ∃ row ∈ s, row.transaction_hash = r.transaction_hash) →
      batch.foldl insertRow s = s := by
  intro batch
  induction batch with
  | nil => exact fun s _ => rfl
  | cons r₀ batch ih =>
    intro s hall
    rw [List.foldl_cons]
    have hins : insertRow s r₀ = s := by
      obtain ⟨row, hrow, hh⟩ := hall r₀ (List.mem_cons_self r₀ batch)
      unfold insertRow
      rw [if_pos (List.any_eq_true.mpr ⟨row, hrow, by simpa using hh⟩)]
    rw [hins]
    exact ih s (fun r hr => hall r (List.mem_cons_of_mem r₀ hr))

theorem foldl_insertRow_provenance :
    ∀ (batch : List Row) (s : List Row), ∀ row ∈ batch.foldl insertRow s,
      row ∈ s ∨ row ∈ batch := by
  intro batch
  induction batch with
  | nil => exact fun s row hrow => Or.inl hrow
  | cons r₀ batch ih =>
    intro s row hrow
    rw [List.foldl_cons] at hrow
    rcases ih (insertRow s r₀) row hrow with hmem | hmem
    · rcases insertRow_append s r₀ with hi | hi
      · exact Or.inl (hi ▸ hmem)
      · rw [hi, List.mem_append] at hmem
        rcases hmem with hmem | hmem
        · exact Or.inl hmem
        · exact Or.inr (List.mem_cons.mpr (Or.inl (List.mem_singleton.mp hmem)))
    · exact Or.inr (List.mem_cons_of_mem r₀ hmem)

theorem foldl_insertRow_length :
    ∀ (batch : List Row) (s : List Row),
      (batch.foldl insertRow s).length ≤ s.length + batch.length := by
  intro batch
  induction batch with
  | nil => exact fun s => by simp
  | cons r₀ batch ih =>
    intro s
    rw [List.foldl_cons]
    refine le_trans (ih (insertRow s r₀)) ?_
    rcases insertRow_append s r₀ with hi | hi <;>
      · rw [hi]
        simp
        try omega

theorem mem_foldl_insert (l : List Date) :
    ∀ (init : List Date) (a : Date),
      a ∈ l.foldl (fun acc d => acc.insert d) init ↔ a ∈ init ∨ a ∈ l := by
  induction l with
  | nil => intro init a; simp
  | cons d l ih =>
    intro init a
    rw [List.foldl_cons]
    rw [ih (init.insert d) a, List.mem_insert_iff]
    constructor
    · rintro ((rfl | h) | h)
      · exact Or.inr (List.mem_cons_self a l)
      · exact Or.inl h
      · exact Or.inr (List.mem_cons_of_mem d h)
    · rintro (h | h)
      · exact Or.inl (Or.inr h)
      · rcases List.mem_cons.mp h with rfl | h
        · exact Or.inl (Or.inl rfl)
        · exact Or.inr h

theorem load_transactions_ok_spec {store : List Row} {txns : List NordeaTransaction}
    {f : String} {ld : List Date} {i s : Nat} {nd : List Date} {st' : List Row}
    (h : load_transactions store txns f ld = .ok (i, s, nd, st')) :
    (txns = [] ∧ i = 0 ∧ s = 0 ∧ nd = [] ∧ st' = store) ∨
    (txns ≠ [] ∧ ∃ st : LoadStep, txns.foldlM (processTxn f ld) ⟨[], [], 0⟩ = .ok st ∧
      ((st.batch = [] ∧ i = 0 ∧ s = st.skipped ∧ nd = [] ∧ st' = store) ∨
       (st.batch ≠ [] ∧ st' = st.batch.foldl insertRow store ∧
        i = st'.length - store.length ∧
        s = st.skipped + (st.batch.length - i) ∧ nd = st.dates))) := by
  by_cases hemp : txns.isEmpty
  · left
    rw [load_transactions, if_pos hemp] at h
    cases h
    exact ⟨List.isEmpty_iff.mp hemp, rfl, rfl, rfl, rfl⟩
  · right
    refine ⟨fun hc => hemp (by simp [hc]), ?_⟩
    rw [load_transactions, if_neg hemp] at h
    cases hfold : txns.foldlM (processTxn f ld) ⟨[], [], 0⟩ with
    | error e => rw [hfold] at h; simp [bind, Except.bind] at h
    | ok st =>
      refine ⟨st, rfl, ?_⟩
      rw [hfold] at h
      simp only [bind, Except.bind] at h
      by_cases hb : st.batch.isEmpty
      · left
        rw [if_pos hb] at h
        cases h
        exact ⟨List.isEmpty_iff.mp hb, rfl, rfl, rfl, rfl⟩
      · right
        rw [if_neg hb] at h
        cases h
        exact ⟨fun hc => hb (by simp [hc]), rfl, rfl, rfl, rfl⟩

theorem load_transactions_grows {store : List Row} {txns : List NordeaTransaction}
    {f : String} {ld : List Date} {i s : Nat} {nd : List Date} {st' : List Row}
    (h : load_transactions store txns f ld = .ok (i, s, nd, st')) :
    ∃ tail, st' = store ++ tail := by
  rcases load_transactions_ok_spec h with ⟨_, _, _, _, rfl⟩ | ⟨hne, st, _, hcase⟩
  · exact ⟨[], by simp⟩
  · rcases hcase with ⟨_, _, _, _, rfl⟩ | ⟨_, rfl, _, _, _⟩
    · exact ⟨[], by simp⟩
    · exact foldl_insertRow_append st.batch store

theorem load_transactions_provenance {store : List Row} {txns : List NordeaTransaction}
    {f : String} {ld : List Date} {i s : Nat} {nd : List Date} {st' : List Row}
    (h : load_transactions store txns f ld = .ok (i, s, nd, st')) :
    ∀ row ∈ st', row ∈ store ∨
      (row.source_file = f ∧ ∃ d, row.posting_date = some d ∧ d ∉ ld) := by
  rcases load_transactions_ok_spec h with ⟨_, _, _, _, rfl⟩ | ⟨hne, st, hfold, hcase⟩
  · exact fun row hrow => Or.inl hrow
  · rcases hcase with ⟨_, _, _, _, rfl⟩ | ⟨_, rfl, _, _, _⟩
    · exact fun row hrow => Or.inl hrow
    · intro row hrow
      rcases foldl_insertRow_provenance st.batch store row hrow with hmem | hmem
      · exact Or.inl hmem
      · rcases foldlM_processTxn_batch_spec hfold row hmem with hnil | ⟨t, _, d, _, hd, hrow'⟩
        · exact absurd hnil (List.not_mem_nil row)
        · exact Or.inr ⟨by rw [hrow']; rfl, d, by rw [hrow']; exact ⟨rfl, hd⟩⟩

theorem load_transactions_stores {store : List Row} {txns : List NordeaTransaction}
    {f : String} {ld : List Date} {i s : Nat} {nd : List Date} {st' : List Row}
    (h : load_transactions store txns f ld = .ok (i, s, nd, st')) :
    ∀ t ∈ txns, ∀ d, parse_posting_date t.posting_date f = .ok (some d) → d ∉ ld →
      ∃ row ∈ st', row.transaction_hash = compute_hash t := by
  intro t ht d hp hd
  rcases load_transactions_ok_spec h with ⟨hnil, _, _, _, _⟩ | ⟨hne, st, hfold, hcase⟩
  · exact absurd (hnil ▸ ht) (List.not_mem_nil t)
  · obtain ⟨r, hr, hh⟩ := foldlM_processTxn_present hfold t ht d hp hd
    rcases hcase with ⟨hb, _, _, _, _⟩ | ⟨_, rfl, _, _, _⟩
    · exact absurd (hb ▸ hr) (List.not_mem_nil r)
    · obtain ⟨row, hrow, hh'⟩ := foldl_insertRow_hash_present st.batch store r hr
      exact ⟨row, hrow, hh'.trans hh⟩

theorem load_transactions_conservation {store : List Row} {txns : List NordeaTransaction}
    {f : String} {ld : List Date} {i s : Nat} {nd : List Date} {st' : List Row}
    (h : load_transactions store txns f ld = .ok (i, s, nd, st')) :
    i + s = txns.length := by
  rcases load_transactions_ok_spec h with ⟨hnil, hi, hs, _, _⟩ | ⟨hne, st, hfold, hcase⟩
  · rw [hi, hs, hnil]; rfl
  · have hcount := foldlM_processTxn_count hfold
    simp only [List.length_nil] at hcount
    rcases hcase with ⟨hb, hi, hs, _, _⟩ | ⟨_, hst, hi, hs, _⟩
    · rw [hb] at hcount
      simp only [List.length_nil] at hcount
      rw [hi, hs]
      omega
    · obtain ⟨tail, htail⟩ := foldl_insertRow_append st.batch store
      have hlen : st'.length ≤ store.length + st.batch.length := by
        rw [hst]
        exact foldl_insertRow_length st.batch store
      have hge : store.length ≤ st'.length := by rw [hst, htail]; simp
      rw [hi, hs]
      omega

theorem load_transactions_skips {store : List Row} {txns : List NordeaTransaction}
    {f : String} {ld : List Date} {i s : Nat} {nd : List Date} {st' : List Row}
    (h : load_transactions store txns f ld = .ok (i, s, nd, st')) :
    txns.countP (pendingOrCovered f ld) ≤ s := by
  rcases load_transactions_ok_spec h with ⟨hnil, _, hs, _, _⟩ | ⟨hne, st, hfold, hcase⟩
  · rw [hs, hnil]; simp
  · have hsk := foldlM_processTxn_skipped hfold
    simp only at hsk
    rcases hcase with ⟨_, _, hs, _, _⟩ | ⟨_, _, _, hs, _⟩ <;> rw [hs] <;> omega

theorem load_transactions_idem {store : List Row} {txns : List NordeaTransaction}
    {f : String} {ld : List Date} {i s : Nat} {nd : List Date} {st' : List Row}
    (h : load_transactions store txns f ld = .ok (i, s, nd, st')) :
    ∃ s₂ nd₂, load_transactions st' txns f ld = .ok (0, s₂, nd₂, st') := by
  rcases load_transactions_ok_spec h with ⟨hnil, _, _, _, rfl⟩ | ⟨hne, st, hfold, hcase⟩
  · subst hnil
    exact ⟨0, [], rfl⟩
  · have hemp : ¬ txns.isEmpty := fun hc => hne (List.isEmpty_iff.mp hc)
    rcases hcase with ⟨hb, _, _, _, rfl⟩ | ⟨hb, hst, _, _, _⟩
    · refine ⟨st.skipped, [], ?_⟩
      rw [load_transactions, if_neg hemp, hfold]
      simp only [bind, Except.bind]
      rw [if_pos (List.isEmpty_iff.mpr hb)]
    · have hid : st.batch.foldl insertRow st' = st' :=
        foldl_insertRow_id st.batch st'
          (fun r hr => hst ▸ foldl_insertRow_hash_present st.batch store r hr)
      refine ⟨st.skipped + (st.batch.length - 0), st.dates, ?_⟩
      rw [load_transactions, if_neg hemp, hfold]
      simp only [bind, Except.bind]
      rw [if_neg (fun hc => hb (List.isEmpty_iff.mp hc)), hid]
      simp

theorem load_transactions_congr {store : List Row} {txns : List NordeaTransaction}
    {f : String} {ld₁ ld₂ : List Date} (hmem : ∀ d, d ∈ ld₁ ↔ d ∈ ld₂) :
    load_transactions store txns f ld₁ = load_transactions store txns f ld₂ := by
  unfold load_transactions
  rw [processTxn_congr hmem]

theorem processFile_grows {st st₂ : RunState} {f : CsvFile}
    (h : processFile st f = .ok st₂) : ∃ tail, st₂.store = st.store ++ tail := by
  unfold processFile at h
  cases hp : parse_csv_file f.rows with
  | error e => rw [hp] at h; simp [bind, Except.bind] at h
  | ok txns =>
    rw [hp] at h
    simp only [bind, Except.bind] at h
    cases hl : load_transactions st.store txns f.name
        (st.cov (extract_account_from_filename f.name)) with
    | error e => rw [hl] at h; cases h
    | ok res =>
      obtain ⟨i, s, nd, store₂⟩ := res
      rw [hl] at h
      cases h
      exact load_transactions_grows hl

theorem foldlM_processFile_grows :
    ∀ {files : List CsvFile} {st fin : RunState},
      files.foldlM processFile st = .ok fin → ∃ tail, fin.store = st.store ++ tail := by
  intro files
  induction files with
  | nil =>
    intro st fin h
    simp only [List.foldlM_nil, pure, Except.pure, Except.ok.injEq] at h
    exact ⟨[], by simp [h]⟩
  | cons f files ih =>
    intro st fin h
    rw [List.foldlM_cons] at h
    cases hstep : processFile st f with
    | error e => simp [hstep, bind, Except.bind] at h
    | ok st₂ =>
      simp only [hstep, bind, Except.bind] at h
      obtain ⟨tail₁, h₁⟩ := processFile_grows hstep
      obtain ⟨tail₂, h₂⟩ := ih h
      exact ⟨tail₁ ++ tail₂, by rw [h₂, h₁, List.append_assoc]⟩

theorem load_all_grows {files : List CsvFile} {db : Option (List Row)}
    {st : List Row} {i s : Nat}
    (h : load_all_csv_files files db false = .ok (st, i, s)) :
    ∃ tail, st = db.getD [] ++ tail := by
  unfold load_all_csv_files at h
  simp only [bind, Except.bind] at h
  cases hfold : (sortFilesDesc files).foldlM processFile
      { store := create_staging_table db false, cov := fun _ => [], inserted := 0, skipped := 0 } with
  | error e => rw [hfold] at h; cases h
  | ok fin =>
    rw [hfold] at h
    cases h
    exact foldlM_processFile_grows hfold

theorem zip_padTo_snoc_empty (eh : List String) :
    ∀ s : List String,
      eh.zip (padTo (s ++ [""]) eh.length) = eh.zip (padTo s eh.length) := by
  induction eh with
  | nil => intro s; rfl
  | cons h t ih =>
    intro s
    cases s with
    | nil =>
      show (h :: t).zip (padTo [""] (t.length + 1)) = (h :: t).zip (padTo [] (t.length + 1))
      simp only [padTo, List.length_singleton, List.length_nil, Nat.add_sub_cancel,
        Nat.sub_zero, List.nil_append, List.replicate_succ, List.singleton_append]
    | cons a s' =>
      show (h :: t).zip (padTo (a :: (s' ++ [""])) (t.length + 1)) =
        (h :: t).zip (padTo (a :: s') (t.length + 1))
      have hpad : ∀ (u : List String) (n : Nat), padTo (a :: u) (n + 1) = a :: padTo u n := by
        intro u n
        simp only [padTo, List.length_cons, List.cons_append]
        rw [Nat.add_sub_add_right]
      rw [hpad, hpad, List.zip_cons_cons, List.zip_cons_cons, ih s']

theorem effRow_snoc_empty (r : List String) : effRow (r ++ [""]) = r := by
  rw [effRow, List.getLast?_concat, if_pos rfl, List.dropLast_concat]

theorem rowDict_snoc_empty (eh r : List String) : rowDict eh (r ++ [""]) = rowDict eh r := by
  unfold rowDict
  rw [zip_padTo_snoc_empty]

theorem rowDict_effRow (eh r : List String) : rowDict eh (effRow r) = rowDict eh r := by
  rw [effRow]
  by_cases h : r.getLast? = some ""
  · rw [if_pos h]
    have hrne : r ≠ [] := by
      intro hc
      rw [hc] at h
      simp at h
    have hdecomp : r.dropLast ++ [""] = r := by
      have hlast : r.getLast? = some (r.getLast hrne) := List.getLast?_eq_getLast r hrne
      rw [hlast] at h
      injection h with h'
      conv_rhs => rw [← List.dropLast_concat_getLast hrne]
      rw [h']
    conv_rhs => rw [← hdecomp]
    rw [rowDict_snoc_empty]
  · rw [if_neg h]

theorem processRow_snoc_empty (eh : List String) (acc : List NordeaTransaction)
    (r : List String) : processRow eh acc (r ++ [""]) = processRow eh acc r := by
  by_cases hblank : r.isEmpty = true ∨ r.all (fun v => v == "") = true
  · have hb2 : (r ++ [""]).isEmpty = true ∨ (r ++ [""]).all (fun v => v == "") = true := by
      right
      rcases hblank with h | h
      · rw [List.isEmpty_iff.mp h]
        decide
      · rw [List.all_append, h]
        decide
    rw [processRow, if_pos hb2, processRow, if_pos hblank]
  · have hb2 : ¬ ((r ++ [""]).isEmpty = true ∨ (r ++ [""]).all (fun v => v == "") = true) := by
      rintro (h | h)
      · simp at h
      · rw [List.all_append] at h
        have hand := (Bool.and_eq_true _ _).mp h
        exact hblank (Or.inr (by simpa using hand.1))
    rw [processRow, if_neg hb2, processRow, if_neg hblank, effRow_snoc_empty, ← rowDict_effRow]

theorem foldlM_processRow_snoc (eh : List String) :
    ∀ (rest : List (List String)) (acc : List NordeaTransaction),
      (rest.map (fun r => r ++ [""])).foldlM (processRow eh) acc =
        rest.foldlM (processRow eh) acc := by
  intro rest
  induction rest with
  | nil => intro acc; rfl
  | cons r rest ih =>
    intro acc
    rw [List.map_cons, List.foldlM_cons, List.foldlM_cons, processRow_snoc_empty]
    cases h : processRow eh acc r with
    | error e => simp [h, bind, Except.bind]
    | ok acc₂ => simp [h, bind, Except.bind, ih]

theorem isPending_imp_pendingOrCovered (f : String) (ld : List Date)
    (t : NordeaTransaction) (h : isPending f t = true) :
    pendingOrCovered f ld t = true := by
  unfold isPending at h
  unfold pendingOrCovered
  cases hp : parse_posting_date t.posting_date f with
  | error e => rw [hp] at h; exact absurd h (by simp)
  | ok pd =>
    cases pd with
    | none => rfl
    | some d => rw [hp] at h; exact absurd h (by simp)

theorem isCovered_imp_pendingOrCovered (f : String) (ld : List Date)
    (t : NordeaTransaction) (h : isCovered f ld t = true) :
    pendingOrCovered f ld t = true := by
  unfold isCovered at h
  unfold pendingOrCovered
  cases hp : parse_posting_date t.posting_date f with
  | error e => rw [hp] at h; exact absurd h (by simp)
  | ok pd =>
    cases pd with
    | none => rfl
    | some d => rw [hp] at h; exact h

theorem load_transactions_bad_date {store : List Row} {txns : List NordeaTransaction}
    {f : String} {ld : List Date}
    (hbad : ∃ t ∈ txns, ∃ v, t.posting_date = some v ∧ v ≠ "" ∧ parsePostingDateStr v = none) :
    ∃ e : DateError, load_transactions store txns f ld = .error e ∧ e.file = f ∧
      parsePostingDateStr e.value = none ∧ (∃ t ∈ txns, t.posting_date = some e.value) ∧
      e.render = "Failed to parse posting_date '" ++ e.value ++ "' in file '" ++ e.file ++ "'" := by
  obtain ⟨t, ht, v, hv, hne, hb⟩ := hbad
  have hbadparse : ∃ t' ∈ txns, ∃ e, parse_posting_date t'.posting_date f = .error e :=
    ⟨t, ht, ⟨v, f⟩, by rw [hv]; exact parse_posting_date_error_mk hne hb⟩
  obtain ⟨e, hfold, t', ht', hpe⟩ := foldlM_processTxn_error ⟨[], [], 0⟩ hbadparse
  have hemp : ¬ txns.isEmpty := by
    intro hc
    rw [List.isEmpty_iff.mp hc] at ht
    exact List.not_mem_nil t ht
  obtain ⟨hfile, hsome, hneval, hbadval⟩ := parse_posting_date_error_spec hpe
  refine ⟨e, ?_, hfile, hbadval, ⟨t', ht', hsome⟩, rfl⟩
  rw [load_transactions, if_neg hemp, hfold]
  rfl

theorem load_all_two_files {fNew fOld : CsvFile}
    (hlt : strLt fOld.name.data fNew.name.data = true) :
    load_all_csv_files [fOld, fNew] none true = (do
      let st₁ ← processFile { store := [], cov := fun _ => [], inserted := 0, skipped := 0 } fNew
      let st₂ ← processFile st₁ fOld
      Except.ok (st₂.store, st₂.inserted, st₂.skipped)) := by
  have hsort : sortFilesDesc [fOld, fNew] = [fNew, fOld] := by
    simp [sortFilesDesc, insertFileDesc, hlt]
  unfold load_all_csv_files
  rw [hsort]
  simp only [create_staging_table, if_pos, bind, Except.bind]
  rw [List.foldlM_cons]
  cases h1 : processFile { store := [], cov := fun _ => [], inserted := 0, skipped := 0 } fNew with
  | error e => simp [h1, bind, Except.bind]
  | ok st₁ =>
    simp only [h1, bind, Except.bind]
    rw [List.foldlM_cons]
    cases h2 : processFile st₁ fOld with
    | error e => simp [h2, bind, Except.bind]
    | ok st₂ =>
      simp only [h2, bind, Except.bind]
      rw [List.foldlM_nil]
      rfl

theorem processFile_eval (store : List Row) (cov : String → List Date) (ins sk : Nat)
    {f : CsvFile} {txns : List NordeaTransaction}
    {i s : Nat} {nd : List Date} {store₂ : List Row}
    (hp : parse_csv_file f.rows = .ok txns)
    (hl : load_transactions store txns f.name
        (cov (extract_account_from_filename f.name)) = .ok (i, s, nd, store₂)) :
    processFile ⟨store, cov, ins, sk⟩ f = .ok
      ⟨store₂
      , fun a => if a = extract_account_from_filename f.name then
          nd.foldl (fun acc d => acc.insert d) (cov (extract_account_from_filename f.name))
        else cov a
      , ins + i
      , sk + s⟩ := by
  unfold processFile
  simp only [hp, hl, bind, Except.bind]

/-! Concrete sample data, used by the counterexamples and witnesses. -/

/-- The real Nordea export header. -/
def sampleHeader : List String :=
  ["Bogføringsdato", "Beløb", "Afsender", "Modtager", "Navn", "Beskrivelse", "Saldo", "Valuta", "Afstemt"]

/-- A data row of the newer file, dated 2024/01/05. -/
def sampleRowB1 : List String :=
  ["2024/01/05", "5,50", "", "", "Cafe", "Tea", "94,50", "DKK", ""]

/-- A data row of the older file, also dated 2024/01/05. -/
def sampleRowA1 : List String :=
  ["2024/01/05", "-12,00", "", "", "Shop", "Coffee", "100,00", "DKK", ""]

/-- A data row of the older file, dated 2024/01/04 (not covered by the
newer file). -/
def sampleRowA2 : List String :=
  ["2024/01/04", "7,00", "", "", "Bar", "Beer", "80,00", "DKK", ""]

/-- A data row whose posting date does not match `%Y/%m/%d`. -/
def sampleRowBad : List String :=
  ["2024-13-40", "-12,00", "", "", "Shop", "Coffee", "100,00", "DKK", ""]

/-- The parsed record of `sampleRowB1`. -/
def txnB1 : NordeaTransaction :=
  ⟨some "2024/01/05", ⟨55, 1⟩, none, none, some "Cafe", some "Tea", some ⟨945, 1⟩, "DKK", none⟩

/-- The parsed record of `sampleRowA1`. -/
def txnA1 : NordeaTransaction :=
  ⟨some "2024/01/05", ⟨-12, 0⟩, none, none, some "Shop", some "Coffee", some ⟨100, 0⟩, "DKK", none⟩

/-- The parsed record of `sampleRowA2`. -/
def txnA2 : NordeaTransaction :=
  ⟨some "2024/01/04", ⟨7, 0⟩, none, none, some "Bar", some "Beer", some ⟨80, 0⟩, "DKK", none⟩

/-- The parsed record of `sampleRowBad`: the malformed date passes the
parser through verbatim. -/
def txnBad : NordeaTransaction :=
  ⟨some "2024-13-40", ⟨-12, 0⟩, none, none, some "Shop", some "Coffee", some ⟨100, 0⟩, "DKK", none⟩

/-- A pending ("Reserveret") record: absent posting date. -/
def txnPending : NordeaTransaction :=
  ⟨none, ⟨-5, 0⟩, none, none, some "Shop", some "Pending", none, "DKK", none⟩

/-- A record with every hashed field populated, used to probe the hash. -/
def hashProbe : NordeaTransaction :=
  ⟨some "2024/01/02", ⟨-12, 0⟩, some "Alice", some "Bob", some "Shop", some "Coffee", some ⟨1, 0⟩, "DKK", none⟩

/-- `hashProbe` with only the balance changed. -/
def hashProbeBal : NordeaTransaction := { hashProbe with balance := some ⟨2, 0⟩ }

/-- The newer export file for account "Konto 123" (later timestamp in the
name), containing `sampleRowB1`. -/
def fileB : CsvFile := ⟨"Konto 123 - 2024-02-01 10.00.00.csv", [sampleHeader, sampleRowB1]⟩

/-- The older export file for the same account, containing `sampleRowA1`
(covered date) and `sampleRowA2` (fresh date). -/
def fileA : CsvFile := ⟨"Konto 123 - 2024-01-15 10.00.00.csv", [sampleHeader, sampleRowA1, sampleRowA2]⟩

/-- The row `txnB1` inserts when loaded from `fileB`. -/
def storedB1 : Row := mkRow txnB1 fileB.name ⟨2024, 1, 5⟩

/-- The row `txnA2` inserts when loaded from `fileA`. -/
def storedA2 : Row := mkRow txnA2 fileA.name ⟨2024, 1, 4⟩

/-- A staging row already present before a run. -/
def priorRow : Row :=
  ⟨"h0", some ⟨2024, 1, 1⟩, ⟨5, 0⟩, none, none, none, none, none, "DKK", none, "old.csv"⟩

/-- The row `txnA1` inserts when loaded from `"f.csv"`. -/
def storedA1 : Row := mkRow txnA1 "f.csv" ⟨2024, 1, 5⟩

/-! The claims. -/

/-- C1, counterexample: the content hash is not a function that separates
records by balance — two records agreeing on posting date, amount,
description, name (and even sender and recipient) but differing only in
`balance` have the same digest, because `compute_hash` does not include
`balance`.  This falsifies both halves of the claim for the stated field
set. -/
theorem claim1_hash_field_set_counterexample :
    hashProbe.posting_date = hashProbeBal.posting_date ∧
    hashProbe.amount = hashProbeBal.amount ∧
    hashProbe.description = hashProbeBal.description ∧
    hashProbe.name = hashProbeBal.name ∧
    hashProbe.sender = hashProbeBal.sender ∧
    hashProbe.recipient = hashProbeBal.recipient ∧
    hashProbe.balance ≠ hashProbeBal.balance ∧
    compute_hash hashProbe = compute_hash hashProbeBal :=
  ⟨rfl, rfl, rfl, rfl, rfl, rfl, by decide, rfl⟩

/-- C1, amended: the content hash is a deterministic function of exactly
the field set {posting_date, amount, description, name, sender,
recipient}: records agreeing on these six fields always have equal
digests; records differing only in a non-hashed field (balance, currency,
reconciled) always have equal digests; and for each of the six hashed
fields there are records differing only in that field whose digests
differ. -/
theorem claim1_hash_field_set_amended :
    (∀ t₁ t₂ : NordeaTransaction,
      t₁.posting_date = t₂.posting_date → t₁.amount = t₂.amount →
      t₁.description = t₂.description → t₁.name = t₂.name →
      t₁.sender = t₂.sender → t₁.recipient = t₂.recipient →
      compute_hash t₁ = compute_hash t₂) ∧
    (∀ (t : NordeaTransaction) (b : Option Dec) (c : String) (r : Option String),
      compute_hash { t with balance := b, currency := c, reconciled := r } = compute_hash t) ∧
    (∃ t v, compute_hash { t with posting_date := v } ≠ compute_hash t) ∧
    (∃ t v, compute_hash { t with amount := v } ≠ compute_hash t) ∧
    (∃ t v, compute_hash { t with description := v } ≠ compute_hash t) ∧
    (∃ t v, compute_hash { t with name := v } ≠ compute_hash t) ∧
    (∃ t v, compute_hash { t with sender := v } ≠ compute_hash t) ∧
    (∃ t v, compute_hash { t with recipient := v } ≠ compute_hash t) := by
  refine ⟨?_, fun t b c r => rfl, ⟨hashProbe, some "2024/01/03", by decide⟩,
    ⟨hashProbe, ⟨7, 0⟩, by decide⟩, ⟨hashProbe, some "Other", by decide⟩,
    ⟨hashProbe, some "Other", by decide⟩, ⟨hashProbe, some "Other", by decide⟩,
    ⟨hashProbe, some "Other", by decide⟩⟩
  intro t₁ t₂ h₁ h₂ h₃ h₄ h₅ h₆
  simp only [compute_hash, h₁, h₂, h₃, h₄, h₅, h₆]

/-- Witness for C1 (amended): the six-field congruence applied to the
concrete pair that differs only in balance. -/
theorem claim1_hash_field_set_witness :
    (hashProbe.posting_date = hashProbeBal.posting_date ∧
     hashProbe.amount = hashProbeBal.amount ∧
     hashProbe.description = hashProbeBal.description ∧
     hashProbe.name = hashProbeBal.name ∧
     hashProbe.sender = hashProbeBal.sender ∧
     hashProbe.recipient = hashProbeBal.recipient) ∧
    compute_hash hashProbe = compute_hash hashProbeBal :=
  ⟨⟨rfl, rfl, rfl, rfl, rfl, rfl⟩,
    claim1_hash_field_set_amended.1 hashProbe hashProbeBal rfl rfl rfl rfl rfl rfl⟩

/-- C2, counterexample: the default invocation (no explicit mode) drops
and recreates the staging table — a row present before the run with no
files to process is gone afterwards, refuting "every row present in the
staging table before the run is still present after the run". -/
theorem claim2_default_incremental_counterexample :
    load_all_csv_files_default [] (some [priorRow]) = .ok ([], 0, 0) ∧
    priorRow ∉ ([] : List Row) :=
  ⟨rfl, List.not_mem_nil priorRow⟩

/-- C2, amended: the `truncate` parameter of the full-directory load
defaults to `True`, so the default invocation drops and recreates the
staging table; the incremental mode (table preserved, new files merged
in) holds only when `truncate` is explicitly `False`, in which case every
row present before the run is still present, unchanged and in order,
after the run. -/
theorem claim2_default_incremental_amended :
    (∀ files db, load_all_csv_files_default files db = load_all_csv_files files db true) ∧
    (∀ files db st i s, load_all_csv_files files db false = .ok (st, i, s) →
      ∃ tail, st = db.getD [] ++ tail) :=
  ⟨fun _ _ => rfl, fun _ _ _ _ _ h => load_all_grows h⟩

/-- Witness for C2 (amended): an explicit `truncate = false` run over no
files preserves the pre-existing row. -/
theorem claim2_default_incremental_witness :
    load_all_csv_files [] (some [priorRow]) false = .ok ([priorRow], 0, 0) ∧
    ∃ tail, [priorRow] = (some [priorRow]).getD [] ++ tail :=
  ⟨rfl, claim2_default_incremental_amended.2 [] (some [priorRow]) [priorRow] 0 0 rfl⟩

/-- C3: ingestion is idempotent — if loading a list of transactions into
a store succeeds, loading the same transactions into the resulting store
(with the same coverage) succeeds, inserts zero rows, leaves the store
exactly as it was (same total row count, no duplicate rows, no error),
and reports every record as skipped. -/
theorem claim3_idempotent_ingestion :
    ∀ (store : List Row) (txns : List NordeaTransaction) (f : String) (ld : List Date)
      (i s : Nat) (nd : List Date) (st' : List Row),
      load_transactions store txns f ld = .ok (i, s, nd, st') →
      ∃ nd₂, load_transactions st' txns f ld = .ok (0, txns.length, nd₂, st') := by
  intro store txns f ld i s nd st' h
  obtain ⟨s₂, nd₂, h₂⟩ := load_transactions_idem h
  have hc := load_transactions_conservation h₂
  rw [Nat.zero_add] at hc
  exact ⟨nd₂, hc ▸ h₂⟩

/-- Witness for C3: a concrete one-record load, replayed. -/
theorem claim3_idempotent_ingestion_witness :
    load_transactions [] [txnA1] "f.csv" [] = .ok (1, 0, [⟨2024, 1, 5⟩], [storedA1]) ∧
    ∃ nd₂, load_transactions [storedA1] [txnA1] "f.csv" [] = .ok (0, 1, nd₂, [storedA1]) :=
  ⟨rfl, claim3_idempotent_ingestion [] [txnA1] "f.csv" [] 1 0 [⟨2024, 1, 5⟩] [storedA1] rfl⟩

/-- C5: pending-transaction exclusion — `normalize_date` maps the
sentinel "Reserveret" and the empty value to an absent date, and the
per-file load never persists a row without a posting date: every row of
the resulting store either was already present or carries a present
posting date, and at least every pending record is counted as skipped. -/
theorem claim5_pending_exclusion :
    (normalize_date (some "Reserveret") = none ∧ normalize_date (some "") = none ∧
     normalize_date none = none) ∧
    (∀ (store : List Row) (txns : List NordeaTransaction) (f : String) (ld : List Date)
      (i s : Nat) (nd : List Date) (st' : List Row),
      load_transactions store txns f ld = .ok (i, s, nd, st') →
      (∀ row ∈ st', row ∈ store ∨ ∃ d, row.posting_date = some d) ∧
      txns.countP (isPending f) ≤ s) := by
  refine ⟨⟨rfl, rfl, rfl⟩, ?_⟩
  intro store txns f ld i s nd st' h
  constructor
  · intro row hrow
    rcases load_transactions_provenance h row hrow with hm | ⟨_, d, hd, _⟩
    · exact Or.inl hm
    · exact Or.inr ⟨d, hd⟩
  · exact le_trans
      (List.countP_mono_left (fun t _ => isPending_imp_pendingOrCovered f ld t))
      (load_transactions_skips h)

/-- Witness for C5: loading a single pending record inserts nothing and
counts one skip. -/
theorem claim5_pending_exclusion_witness :
    load_transactions [] [txnPending] "f.csv" [] = .ok (0, 1, [], []) ∧
    ((∀ row ∈ ([] : List Row), row ∈ ([] : List Row) ∨ ∃ d, row.posting_date = some d) ∧
     List.countP (isPending "f.csv") [txnPending] ≤ 1) :=
  ⟨rfl, claim5_pending_exclusion.2 [] [txnPending] "f.csv" [] 0 1 [] [] rfl⟩

/-- C6: a record with a present posting date that does not match
`%Y/%m/%d` makes the per-file load raise a `ValueError` naming the
offending value and the source file, before the batch insert runs — the
call produces an error instead of a store, so no row from that file is
committed. -/
theorem claim6_malformed_date_fails_file :
    ∀ (store : List Row) (txns : List NordeaTransaction) (f : String) (ld : List Date),
      (∃ t ∈ txns, ∃ v, t.posting_date = some v ∧ v ≠ "" ∧ parsePostingDateStr v = none) →
      ∃ e : DateError,
        load_transactions store txns f ld = .error e ∧
        e.file = f ∧ parsePostingDateStr e.value = none ∧
        (∃ t ∈ txns, t.posting_date = some e.value) ∧
        (∃ a b c, e.render = a ++ e.value ++ b ++ e.file ++ c) := by
  intro store txns f ld hbad
  obtain ⟨e, herr, hfile, hval, hsome, hrender⟩ := load_transactions_bad_date hbad
  exact ⟨e, herr, hfile, hval, hsome,
    "Failed to parse posting_date '", "' in file '", "'", hrender⟩

/-- Witness for C6: the concrete malformed date `"2024-13-40"`. -/
theorem claim6_malformed_date_fails_file_witness :
    (∃ t ∈ [txnBad], ∃ v, t.posting_date = some v ∧ v ≠ "" ∧ parsePostingDateStr v = none) ∧
    (∃ e : DateError,
      load_transactions [] [txnBad] "bad.csv" [] = .error e ∧
      e.file = "bad.csv" ∧ parsePostingDateStr e.value = none ∧
      (∃ t ∈ [txnBad], t.posting_date = some e.value) ∧
      (∃ a b c, e.render = a ++ e.value ++ b ++ e.file ++ c)) :=
  ⟨⟨txnBad, List.mem_singleton.mpr rfl, "2024-13-40", rfl, by decide, rfl⟩,
    claim6_malformed_date_fails_file [] [txnBad] "bad.csv" []
      ⟨txnBad, List.mem_singleton.mpr rfl, "2024-13-40", rfl, by decide, rfl⟩⟩

/-- C7, counterexample: the record parser does not enforce the date
pattern — a file containing the non-sentinel, non-matching date
`"2024-13-40"` parses successfully and emits a record carrying that value
verbatim, refuting "parsing that file fails ... and the parser emits no
records". -/
theorem claim7_parser_date_enforcement_counterexample :
    parse_csv_file [sampleHeader, sampleRowBad] = .ok [txnBad] ∧
    txnBad.posting_date = some "2024-13-40" ∧
    parsePostingDateStr "2024-13-40" = none :=
  ⟨rfl, rfl, rfl⟩

/-- C7, amended: the parser passes every non-sentinel, non-empty date
value through unvalidated; the `YYYY/MM/DD` check is enforced later by
the per-file load operation, which fails with a descriptive error naming
the value and the file before committing any row. -/
theorem claim7_parser_date_enforcement_amended :
    (∀ v : String, v ≠ "" → v ≠ "Reserveret" → normalize_date (some v) = some v) ∧
    (∀ (store : List Row) (txns : List NordeaTransaction) (f : String) (ld : List Date),
      (∃ t ∈ txns, ∃ v, t.posting_date = some v ∧ v ≠ "" ∧ parsePostingDateStr v = none) →
      ∃ e : DateError, load_transactions store txns f ld = .error e ∧ e.file = f ∧
        (∃ t ∈ txns, t.posting_date = some e.value) ∧ parsePostingDateStr e.value = none) := by
  constructor
  · intro v h1 h2
    simp [normalize_date, h1, h2]
  · intro store txns f ld hbad
    obtain ⟨e, herr, hfile, hval, hsome, _⟩ := load_transactions_bad_date hbad
    exact ⟨e, herr, hfile, hsome, hval⟩

/-- Witness for C7 (amended): both parts at the concrete record parsed
from the malformed file. -/
theorem claim7_parser_date_enforcement_witness :
    (("2024-13-40" : String) ≠ "" ∧ ("2024-13-40" : String) ≠ "Reserveret" ∧
      normalize_date (some "2024-13-40") = some "2024-13-40") ∧
    ((∃ t ∈ [txnBad], ∃ v, t.posting_date = some v ∧ v ≠ "" ∧ parsePostingDateStr v = none) ∧
     ∃ e : DateError, load_transactions [] [txnBad] "bad.csv" [] = .error e ∧
       e.file = "bad.csv" ∧ (∃ t ∈ [txnBad], t.posting_date = some e.value) ∧
       parsePostingDateStr e.value = none) :=
  ⟨⟨by decide, by decide,
      claim7_parser_date_enforcement_amended.1 "2024-13-40" (by decide) (by decide)⟩,
    ⟨txnBad, List.mem_singleton.mpr rfl, "2024-13-40", rfl, by decide, rfl⟩,
    claim7_parser_date_enforcement_amended.2 [] [txnBad] "bad.csv" []
      ⟨txnBad, List.mem_singleton.mpr rfl, "2024-13-40", rfl, by decide, rfl⟩⟩

/-- C8: Danish-locale decimal normalization — `"1.234,56"` parses to
`1234.56` (periods stripped, comma turned into the decimal point),
`"-12,00"` parses to `-12.00`, and an empty or absent value parses to
absent. -/
theorem claim8_danish_decimal :
    parse_danish_decimal (some "1.234,56") = .ok (some ⟨123456, 2⟩) ∧
    Dec.toRat ⟨123456, 2⟩ = 1234.56 ∧
    parse_danish_decimal (some "-12,00") = .ok (some ⟨-12, 0⟩) ∧
    Dec.toRat ⟨-12, 0⟩ = -12.00 ∧
    parse_danish_decimal (some "") = .ok none ∧
    parse_danish_decimal none = .ok none :=
  ⟨rfl, by norm_num [Dec.toRat], rfl, by norm_num [Dec.toRat], rfl, rfl⟩

/-- C9: trailing-delimiter tolerance — for a well-formed file (nonempty
header not already ending in an empty column), appending one extra
semicolon to every line, i.e. one empty field to every `csv.reader` row,
header and data rows alike, leaves the parse result unchanged. -/
theorem claim9_trailing_delimiter :
    ∀ (header : List String) (rest : List (List String)),
      header ≠ [] → header.getLast? ≠ some "" →
      parse_csv_file ((header :: rest).map (fun r => r ++ [""])) =
        parse_csv_file (header :: rest) := by
  intro header rest hne hlast
  rw [List.map_cons]
  show parse_csv_file ((header ++ [""]) :: rest.map (fun r => r ++ [""])) =
    parse_csv_file (header :: rest)
  rw [parse_csv_file, parse_csv_file]
  rw [if_neg (fun hc : (header ++ [""]).isEmpty = true => by simp at hc)]
  rw [if_neg (fun hc : header.isEmpty = true => hne (List.isEmpty_iff.mp hc))]
  rw [List.getLast?_concat, if_pos rfl, List.dropLast_concat, if_neg hlast]
  exact foldlM_processRow_snoc (header.map COLUMN_MAPPING) rest []

/-- Witness for C9: the concrete two-row file with and without trailing
semicolons. -/
theorem claim9_trailing_delimiter_witness :
    (sampleHeader ≠ [] ∧ sampleHeader.getLast? ≠ some "") ∧
    parse_csv_file (([sampleHeader, sampleRowA1, sampleRowA2].map (fun r => r ++ [""]))) =
      parse_csv_file [sampleHeader, sampleRowA1, sampleRowA2] :=
  ⟨⟨by decide, by decide⟩,
    claim9_trailing_delimiter sampleHeader [sampleRowA1, sampleRowA2] (by decide) (by decide)⟩

/-- C4: precedence of newer files — for two files of the same account
where file B sorts lexically after file A, the full-directory run
processes B first and equals the composition of the two per-file loads
with B's new dates as A's coverage; every stored row dated inside B's
coverage comes from B (A's same-date transactions are excluded and at
least every covered record of A is counted in A's skips), while A's
transactions on dates outside B's coverage end up stored (their hash is
present in the final store). -/
theorem claim4_newer_file_precedence :
    ∀ (fA fB : CsvFile) (txnsA txnsB : List NordeaTransaction)
      (iB sB : Nat) (dB : List Date) (storeB : List Row)
      (iA sA : Nat) (dA : List Date) (storeA : List Row),
      parse_csv_file fB.rows = .ok txnsB →
      parse_csv_file fA.rows = .ok txnsA →
      strLt fA.name.data fB.name.data = true →
      extract_account_from_filename fA.name = extract_account_from_filename fB.name →
      load_transactions [] txnsB fB.name [] = .ok (iB, sB, dB, storeB) →
      load_transactions storeB txnsA fA.name dB = .ok (iA, sA, dA, storeA) →
      load_all_csv_files [fA, fB] none true = .ok (storeA, iB + iA, sB + sA) ∧
      (∀ row ∈ storeA, (∃ d, row.posting_date = some d ∧ d ∈ dB) →
        row.source_file = fB.name) ∧
      (∀ t ∈ txnsA, ∀ d, parse_posting_date t.posting_date fA.name = .ok (some d) →
        d ∉ dB → ∃ row ∈ storeA, row.transaction_hash = compute_hash t) ∧
      txnsA.countP (isCovered fA.name dB) ≤ sA := by
  intro fA fB txnsA txnsB iB sB dB storeB iA sA dA storeA hpB hpA hlt hacct hB hA
  refine ⟨?_, ?_, ?_, ?_⟩
  · have h1 := processFile_eval [] (fun _ => []) 0 0 hpB hB
    have hmem : ∀ d, d ∈ dB.foldl (fun acc d => acc.insert d) ([] : List Date) ↔ d ∈ dB := by
      intro d
      rw [mem_foldl_insert]
      simp
    have hl2 : load_transactions storeB txnsA fA.name
        (if extract_account_from_filename fA.name = extract_account_from_filename fB.name
          then dB.foldl (fun acc d => acc.insert d) [] else []) = .ok (iA, sA, dA, storeA) := by
      rw [if_pos hacct]
      exact (load_transactions_congr hmem).trans hA
    have h2 := processFile_eval storeB
      (fun a => if a = extract_account_from_filename fB.name
        then dB.foldl (fun acc d => acc.insert d) [] else [])
      (0 + iB) (0 + sB) hpA hl2
    rw [load_all_two_files hlt, h1]
    simp only [bind, Except.bind]
    rw [h2]
    simp
  · intro row hrow ⟨d, hd, hdB⟩
    rcases load_transactions_provenance hA row hrow with hmem | ⟨_, d', hd', hnot⟩
    · rcases load_transactions_provenance hB row hmem with hnil | ⟨hsrc, _⟩
      · exact absurd hnil (List.not_mem_nil row)
      · exact hsrc
    · rw [hd] at hd'
      injection hd' with he
      exact absurd hdB (he ▸ hnot)
  · exact fun t ht d hp hd => load_transactions_stores hA t ht d hp hd
  · exact le_trans
      (List.countP_mono_left (fun t _ => isCovered_imp_pendingOrCovered fA.name dB t))
      (load_transactions_skips hA)

/-- Witness for C4: the concrete same-account pair — B (newer) covers
2024/01/05 with its own transaction; A's 2024/01/05 transaction is
skipped and its 2024/01/04 transaction is stored. -/
theorem claim4_newer_file_precedence_witness :
    (parse_csv_file fileB.rows = .ok [txnB1] ∧
     parse_csv_file fileA.rows = .ok [txnA1, txnA2] ∧
     strLt fileA.name.data fileB.name.data = true ∧
     extract_account_from_filename fileA.name = extract_account_from_filename fileB.name ∧
     load_transactions [] [txnB1] fileB.name [] = .ok (1, 0, [⟨2024, 1, 5⟩], [storedB1]) ∧
     load_transactions [storedB1] [txnA1, txnA2] fileA.name [⟨2024, 1, 5⟩] =
       .ok (1, 1, [⟨2024, 1, 4⟩], [storedB1, storedA2])) ∧
    (load_all_csv_files [fileA, fileB] none true =
       .ok ([storedB1, storedA2], 1 + 1, 0 + 1) ∧
     (∀ row ∈ [storedB1, storedA2],
        (∃ d, row.posting_date = some d ∧ d ∈ ([⟨2024, 1, 5⟩] : List Date)) →
        row.source_file = fileB.name) ∧
     (∀ t ∈ [txnA1, txnA2], ∀ d,
        parse_posting_date t.posting_date fileA.name = .ok (some d) →
        d ∉ ([⟨2024, 1, 5⟩] : List Date) →
        ∃ row ∈ [storedB1, storedA2], row.transaction_hash = compute_hash t) ∧
     List.countP (isCovered fileA.name [⟨2024, 1, 5⟩]) [txnA1, txnA2] ≤ 1) :=
  ⟨⟨rfl, rfl, by decide, rfl, rfl, rfl⟩,
    claim4_newer_file_precedence fileA fileB [txnA1, txnA2] [txnB1]
      1 0 [⟨2024, 1, 5⟩] [storedB1] 1 1 [⟨2024, 1, 4⟩] [storedB1, storedA2]
      rfl rfl (by decide) rfl rfl rfl⟩

/-- C10: count conservation — whenever the per-file load succeeds (all
date values parse), the inserted count plus the skipped count equals the
number of transaction records passed in. -/
theorem claim10_count_conservation :
    ∀ (store : List Row) (txns : List NordeaTransaction) (f : String) (ld : List Date)
      (i s : Nat) (nd : List Date) (st' : List Row),
      load_transactions store txns f ld = .ok (i, s, nd, st') →
      i + s = txns.length :=
  fun _ _ _ _ _ _ _ _ h => load_transactions_conservation h

/-- Witness for C10: a two-record load (one inserted, one
pending-skipped) accounts for both records. -/
theorem claim10_count_conservation_witness :
    load_transactions [] [txnA1, txnPending] "f.csv" [] =
      .ok (1, 1, [⟨2024, 1, 5⟩], [storedA1]) ∧
    1 + 1 = ([txnA1, txnPending] : List NordeaTransaction).length :=
  ⟨rfl, claim10_count_conservation [] [txnA1, txnPending] "f.csv" [] 1 1
    [⟨2024, 1, 5⟩] [storedA1] rfl⟩

end Finance
